import Mathlib

/-!
Verification of the kana-normalization and station-sort helpers of the
Nurseryschool_Availability repository (`src/common.js`, which contains two
successive versions of the module, and `src/unnamed/part_000`, a third
version with an extended normalizer).

JavaScript strings are modelled as lists of Unicode code points
(`List Nat`); all operations of the source treat surrogate pairs as opaque
units, so the code-point view is faithful.  JavaScript's
`String.prototype.toLowerCase` is modelled as ASCII-range case folding, the
range the spec declares sufficient for this system's data (Japanese text
plus incidental Latin characters).  JavaScript numbers reached by
`Number(string)` in this code are modelled as exact rationals; the string
grammar accepted by `Number` (decimal with optional sign, fraction and
exponent, `Infinity`, and unsigned hex/octal/binary literals) is modelled
directly, and the exact mathematical value of the literal is then rounded
to the nearest IEEE-754 binary64 value (round-to-nearest, ties to even,
with overflow beyond `2^1024` becoming Infinity — hence non-finite — and
gradual underflow rounding to the finite value 0), matching `Number(s)`
followed by the source's `Number.isFinite` check.  A finite numeric value
is an exact fraction, represented as a numerator/denominator pair
`Int × Nat` with positive denominator (kept unreduced so that the kernel
can evaluate it); after rounding, the denominator is a power of two and
the fraction is exactly the double's value.
-/

/-- The JavaScript `\s` (and `String.prototype.trim`) whitespace set. -/
def isWs (c : Nat) : Bool :=
  decide (c = 0x9 ∨ c = 0xA ∨ c = 0xB ∨ c = 0xC ∨ c = 0xD ∨ c = 0x20 ∨
    c = 0xA0 ∨ c = 0x1680 ∨ (0x2000 ≤ c ∧ c ≤ 0x200A) ∨ c = 0x2028 ∨
    c = 0x2029 ∨ c = 0x202F ∨ c = 0x205F ∨ c = 0x3000 ∨ c = 0xFEFF)

/-- `replace(/　/g, " ")`: full-width space (U+3000) to ASCII space. -/
def fwRepl (c : Nat) : Nat := if c = 0x3000 then 0x20 else c

/-- ASCII-range case folding, the model of `toLowerCase` (spec 4.2 step 5). -/
def lowerChar (c : Nat) : Nat := if 0x41 ≤ c ∧ c ≤ 0x5A then c + 0x20 else c

/-- The katakana-to-hiragana fold of `toHira` / `kataToHira`:
code points U+30A1..U+30F6 are shifted down by 0x60. -/
def kanaFold (c : Nat) : Nat :=
  if 0x30A1 ≤ c ∧ c ≤ 0x30F6 then c - 0x60 else c

/-- `replace(/[‐-‒–—―ーｰ]/g, "ー")` of the part_000 normalizer:
U+2010..U+2015, U+30FC and U+FF70 all become U+30FC. -/
def dashRepl (c : Nat) : Nat :=
  if (0x2010 ≤ c ∧ c ≤ 0x2015) ∨ c = 0x30FC ∨ c = 0xFF70 then 0x30FC else c

/-- The bracket class stripped by the part_000 normalizer:
（）()[]【】「」『』. -/
def isBracket (c : Nat) : Bool :=
  decide (c = 0x28 ∨ c = 0x29 ∨ c = 0x5B ∨ c = 0x5D ∨ c = 0xFF08 ∨
    c = 0xFF09 ∨ c = 0x3010 ∨ c = 0x3011 ∨ c = 0x300C ∨ c = 0x300D ∨
    c = 0x300E ∨ c = 0x300F)

/-- `replace(/\s+/g, " ")`: every maximal run of whitespace becomes one
ASCII space. -/
def collapseWs : List Nat → List Nat
  | [] => []
  | [c] => [if isWs c then 0x20 else c]
  | c :: d :: rest =>
    if isWs c && isWs d then collapseWs (d :: rest)
    else (if isWs c then 0x20 else c) :: collapseWs (d :: rest)

/-- Remove the trailing whitespace run (the right half of `trim()`). -/
def trimRight : List Nat → List Nat
  | [] => []
  | c :: t =>
    match trimRight t with
    | [] => if isWs c then [] else [c]
    | z => c :: z

/-- `String.prototype.trim()`. -/
def trimWs (l : List Nat) : List Nat := trimRight (l.dropWhile isWs)

/-- Version-1 `normalizeForSearch` applied to a string (common.js
lines 100-107): full-width spaces to spaces, collapse whitespace, trim,
lowercase, katakana to hiragana. -/
def norm1Str (s : List Nat) : List Nat :=
  ((trimWs (collapseWs (s.map fwRepl))).map lowerChar).map kanaFold

/-- Version-2 `normalizeForSearch` applied to a string (common.js
lines 237-246): full-width spaces to spaces, collapse and trim, katakana
to hiragana, remove all whitespace, lowercase. -/
def norm2Str (s : List Nat) : List Nat :=
  (((trimWs (collapseWs (s.map fwRepl))).map kanaFold).filter
    (fun c => !isWs c)).map lowerChar

/-- The part_000 `normalizeForSearch` applied to a string: katakana to
hiragana, lowercase, remove all whitespace, unify dash variants to the
long-vowel mark, strip brackets. -/
def normExtStr (s : List Nat) : List Nat :=
  ((((s.map kanaFold).map lowerChar).filter (fun c => !isWs c)).map
    dashRepl).filter (fun c => !isBracket c)

/-- A JavaScript value as it appears in a facility record field. -/
inductive JSVal where
  | null : JSVal
  | undef : JSVal
  | str : List Nat → JSVal
  | num : Int → JSVal
deriving DecidableEq

/-- Decimal digits of a natural number, most significant first
(fuel-based so that it reduces in the kernel). -/
def natToStrAux : Nat → Nat → List Nat
  | 0, _ => []
  | fuel + 1, n =>
    if n < 10 then [0x30 + n] else natToStrAux fuel (n / 10) ++ [0x30 + n % 10]

/-- Decimal rendering of a natural number. -/
def natToStr (n : Nat) : List Nat := natToStrAux (n + 1) n

/-- `String(n)` for an integer JavaScript number. -/
def intToStr : Int → List Nat
  | .ofNat m => natToStr m
  | .negSucc m => 0x2D :: natToStr (m + 1)

/-- `safeStr(x)`: null/undefined become the empty string, other values are
converted with `String(x)`. -/
def safeStr : JSVal → List Nat
  | .null => []
  | .undef => []
  | .str s => s
  | .num n => intToStr n

/-- `s.toLowerCase()` on a whole string. -/
def lowerStr (s : List Nat) : List Nat := s.map lowerChar

/-- `isNullLike(s)`: trimmed value is empty, "-", or "null"
(case-insensitive). -/
def isNullLike (s : List Nat) : Bool :=
  let t := trimWs s
  decide (t = []) || decide (t = [0x2D]) ||
    decide (lowerStr t = [0x6E, 0x75, 0x6C, 0x6C])

/-- ASCII decimal digit test. -/
def isDigit (c : Nat) : Bool := decide (0x30 ≤ c ∧ c ≤ 0x39)

/-- ASCII hexadecimal digit test. -/
def isHexDigit (c : Nat) : Bool :=
  decide ((0x30 ≤ c ∧ c ≤ 0x39) ∨ (0x41 ≤ c ∧ c ≤ 0x46) ∨
    (0x61 ≤ c ∧ c ≤ 0x66))

/-- Numeric value of a (hex) digit code point. -/
def hexDigitVal (c : Nat) : Nat :=
  if c ≤ 0x39 then c - 0x30 else if c ≤ 0x46 then c - 0x37 else c - 0x57

/-- Value of a digit string in the given base. -/
def digitsVal (base : Nat) (l : List Nat) : Nat :=
  l.foldl (fun a c => a * base + hexDigitVal c) 0

/-- Value of `intpart.fracpart` as an exact fraction (numerator,
denominator). -/
def mantissa (ip fp : List Nat) : Int × Nat :=
  ((digitsVal 10 (ip ++ fp) : Int), 10 ^ fp.length)

/-- Scale a fraction by `10 ^ e` for a signed exponent `e`. -/
def scalePow10 (m : Int × Nat) (e : Int) : Int × Nat :=
  if 0 ≤ e then (m.1 * (10 ^ e.toNat : Nat), m.2) else (m.1, m.2 * 10 ^ (-e).toNat)

/-- The code points of `Infinity`. -/
def infinityCodes : List Nat := [0x49, 0x6E, 0x66, 0x69, 0x6E, 0x69, 0x74, 0x79]

/-- Parse an unsigned decimal literal (`digits [. digits] [e|E [sign] digits]`);
`none` models NaN. -/
def parseDecimal (t : List Nat) : Option (Int × Nat) :=
  let ip := t.takeWhile isDigit
  let r1 := t.dropWhile isDigit
  let fr : List Nat × List Nat :=
    match r1 with
    | 0x2E :: r => (r.takeWhile isDigit, r.dropWhile isDigit)
    | _ => ([], r1)
  if ip = [] ∧ fr.1 = [] then none
  else
    match fr.2 with
    | [] => some (mantissa ip fr.1)
    | e :: r3 =>
      if e = 0x65 ∨ e = 0x45 then
        let sg : Int × List Nat :=
          match r3 with
          | 0x2B :: r => (1, r)
          | 0x2D :: r => (-1, r)
          | _ => (1, r3)
        if sg.2 ≠ [] ∧ sg.2.all isDigit then
          some (scalePow10 (mantissa ip fr.1) (sg.1 * (digitsVal 10 sg.2 : Int)))
        else none
      else none

/-- Parse after the sign: `Infinity` is not finite, else a decimal literal. -/
def parseUnsigned (t : List Nat) : Option (Int × Nat) :=
  if t = infinityCodes then none else parseDecimal t

/-- The exact mathematical value of the numeric literal accepted by
`Number(s)` on an already-trimmed string; `none` models NaN and the
`Infinity` literal.  The empty string parses to 0; hex/octal/binary
prefixes admit no sign, matching JavaScript. -/
def parseNumberLiteral (s : List Nat) : Option (Int × Nat) :=
  if s = [] then some (0, 1)
  else
    match s with
    | 0x30 :: x :: rest =>
      if x = 0x78 ∨ x = 0x58 then
        if rest ≠ [] ∧ rest.all isHexDigit then some ((digitsVal 16 rest : Int), 1)
        else none
      else if x = 0x6F ∨ x = 0x4F then
        if rest ≠ [] ∧ rest.all (fun c => decide (0x30 ≤ c ∧ c ≤ 0x37)) then
          some ((digitsVal 8 rest : Int), 1)
        else none
      else if x = 0x62 ∨ x = 0x42 then
        if rest ≠ [] ∧ rest.all (fun c => decide (c = 0x30 ∨ c = 0x31)) then
          some ((digitsVal 2 rest : Int), 1)
        else none
      else parseDecimal s
    | 0x2B :: rest => parseUnsigned rest
    | 0x2D :: rest => (parseUnsigned rest).map (fun q => (-q.1, q.2))
    | _ => parseDecimal s

/-- Number of binary digits of a natural number (0 for 0), fuel-based so
that it reduces in the kernel. -/
def nbitsAux : Nat → Nat → Nat
  | 0, _ => 0
  | fuel + 1, n => if n = 0 then 0 else nbitsAux fuel (n / 2) + 1

/-- Number of binary digits: `nbits n = floor(log2 n) + 1` for `n ≥ 1`. -/
def nbits (n : Nat) : Nat := nbitsAux n n

/-- Round `a / b` (with `b > 0`) to the nearest integer, ties to even. -/
def roundHalfEven (a b : Nat) : Nat :=
  let q := a / b
  let r := a % b
  if 2 * r < b then q
  else if b < 2 * r then q + 1
  else if q % 2 = 0 then q else q + 1

/-- `floor(log2 (a / b))` for `a, b ≥ 1`, as an integer. -/
def flog2 (a b : Nat) : Int :=
  let k : Int := (nbits a : Int) - (nbits b : Int)
  if 0 ≤ k then (if b * 2 ^ k.toNat ≤ a then k else k - 1)
  else (if b ≤ a * 2 ^ (-k).toNat then k else k - 1)

/-- IEEE-754 binary64 round-to-nearest-even of the positive rational
`a / b`: `some (num, den)` is the exact value of the nearest double (`den`
a power of two), `none` is overflow to Infinity.  Gradual underflow rounds
to 0, which stays finite. -/
def roundPosToDouble (a b : Nat) : Option (Nat × Nat) :=
  let E : Int := flog2 a b
  let e2 : Int := if E < -1022 then -1074 else E - 52
  if 0 ≤ e2 then
    let m := roundHalfEven a (b * 2 ^ e2.toNat)
    if 2 ^ 1024 ≤ m * 2 ^ e2.toNat then none else some (m * 2 ^ e2.toNat, 1)
  else some (roundHalfEven (a * 2 ^ (-e2).toNat) b, 2 ^ (-e2).toNat)

/-- ToNumber rounding of an exact literal value to a binary64 value;
`none` is overflow to ±Infinity. -/
def jsDouble (q : Int × Nat) : Option (Int × Nat) :=
  match q.1 with
  | .ofNat a =>
    if a = 0 then some (0, 1)
    else (roundPosToDouble a q.2).map fun p => ((p.1 : Int), p.2)
  | .negSucc m => (roundPosToDouble (m + 1) q.2).map fun p => (-(p.1 : Int), p.2)

/-- `Number(s)` on an already-trimmed string, restricted to finite
results: the exact literal value rounded to the nearest binary64 double,
with `none` for NaN, the `Infinity` literal, and overflow to ±Infinity —
exactly the inputs the source's `Number.isFinite(n)` check rejects. -/
def jsNumberFinite (s : List Nat) : Option (Int × Nat) :=
  (parseNumberLiteral s).bind jsDouble

/-- `toNumOrNull(x)` (common.js lines 23-29). -/
def toNumOrNull : JSVal → Option (Int × Nat)
  | .null => none
  | .undef => none
  | v =>
    let s := trimWs (safeStr v)
    if isNullLike s then none else jsNumberFinite s

/-- `Math.trunc` on a fraction: truncation toward zero
(`Int.tdiv` is T-division). -/
def ratTrunc (q : Int × Nat) : Int := q.1.tdiv (q.2 : Int)

/-- `toIntOrNull(x)` (common.js lines 31-35). -/
def toIntOrNull (v : JSVal) : Option Int := (toNumOrNull v).map ratTrunc

/-- A facility record; absent fields are `undef`. -/
structure Facility where
  name : JSVal := .undef
  name_kana : JSVal := .undef
  nearest_station : JSVal := .undef
  station_kana : JSVal := .undef
  ward : JSVal := .undef
  address : JSVal := .undef
  walk_minutes : JSVal := .undef
deriving DecidableEq

/-- `f?.field`: optional chaining yields `undefined` on a nullish record. -/
def fieldOr (f : Option Facility) (sel : Facility → JSVal) : JSVal :=
  match f with
  | none => .undef
  | some r => sel r

/-- Version-1 `normalizeForSearch` on any JavaScript value. -/
def normalizeForSearch (v : JSVal) : List Nat := norm1Str (safeStr v)

/-- `parts.join(" ")`. -/
def joinSp : List (List Nat) → List Nat
  | [] => []
  | [x] => x
  | x :: xs => x ++ 0x20 :: joinSp xs

/-- `buildHaystack(f)` (common.js lines 111-121). -/
def buildHaystack (f : Option Facility) : List Nat :=
  normalizeForSearch (.str (joinSp
    [safeStr (fieldOr f (fun r => r.name)),
     safeStr (fieldOr f (fun r => r.name_kana)),
     safeStr (fieldOr f (fun r => r.nearest_station)),
     safeStr (fieldOr f (fun r => r.station_kana)),
     safeStr (fieldOr f (fun r => r.ward)),
     safeStr (fieldOr f (fun r => r.address))]))

/-- `replace(/駅$/g, "")`: remove a single trailing 駅 (U+99C5). -/
def dropTrailingEki (s : List Nat) : List Nat :=
  match s.getLast? with
  | some c => if c = 0x99C5 then s.dropLast else s
  | none => s

/-- `stripStationSuffix(s)` (common.js lines 124-126). -/
def stripStationSuffix (s : List Nat) : List Nat := trimWs (dropTrailingEki s)

/-- Version-1 `pickStationKey(f)` (common.js lines 130-135). -/
def pickStationKey (f : Option Facility) : List Nat :=
  let sk := trimWs (safeStr (fieldOr f (fun r => r.station_kana)))
  let st := trimWs (safeStr (fieldOr f (fun r => r.nearest_station)))
  let base := if sk = [] then stripStationSuffix st else sk
  norm1Str base

/-- `pickWalkMinutes(f)` (common.js lines 138-141). -/
def pickWalkMinutes (f : Option Facility) : Int :=
  match toIntOrNull (fieldOr f (fun r => r.walk_minutes)) with
  | none => 9999
  | some w => w

/-- Version-2 `pickStationKey(f)` (common.js lines 248-255): kana first,
else nearest_station with every 駅 removed, else the sentinel `~~~~`. -/
def pickStationKey2 (r : Facility) : List Nat :=
  let sk := trimWs (safeStr r.station_kana)
  if sk ≠ [] then norm2Str sk
  else
    let ns := trimWs ((safeStr r.nearest_station).filter
      (fun c => !decide (c = 0x99C5)))
    if ns ≠ [] then norm2Str ns
    else [0x7E, 0x7E, 0x7E, 0x7E]

/-- The version-2 `pickStationKey` accesses `f.station_kana` without
optional chaining, so a nullish record raises a TypeError; modelled as
`Except`. -/
def pickStationKey2OnVal (f : Option Facility) : Except Unit (List Nat) :=
  match f with
  | none => .error ()
  | some r => .ok (pickStationKey2 r)

/-- Version-1 `toHira(s)` (common.js lines 81-85). -/
def toHira (v : JSVal) : List Nat := (safeStr v).map kanaFold

/-- Version-2 `kataToHira(s)` (common.js lines 224-235); it iterates code
points, so in this model it coincides with `toHira`. -/
def kataToHira (v : JSVal) : List Nat := (safeStr v).map kanaFold

/-- Lexicographic code-point comparison of two strings. -/
def ltStr : List Nat → List Nat → Bool
  | [], [] => false
  | [], _ :: _ => true
  | _ :: _, [] => false
  | a :: as, b :: bs => if a < b then true else if b < a then false else ltStr as bs

/-- Stable insertion into a sorted list. -/
def insertRec {α : Type} (le : α → α → Bool) (x : α) : List α → List α
  | [] => [x]
  | h :: t => if le x h then x :: h :: t else h :: insertRec le x t

/-- Stable insertion sort. -/
def sortRecs {α : Type} (le : α → α → Bool) : List α → List α
  | [] => []
  | h :: t => insertRec le h (sortRecs le t)

/-- The comparator "station key lexicographically, then walk minutes
ascending" over the version-1 helpers. -/
def le1 (f g : Facility) : Bool :=
  let a := pickStationKey (some f)
  let b := pickStationKey (some g)
  if a = b then decide (pickWalkMinutes (some f) ≤ pickWalkMinutes (some g))
  else ltStr a b

/-- Ordering records by the version-2 station key alone. -/
def leKey2 (f g : Facility) : Bool :=
  let a := pickStationKey2 f
  let b := pickStationKey2 g
  if a = b then true else ltStr a b

/-- The record `{}`. -/
def recEmpty : Facility := {}

/-- The record `{station_kana: "あ"}`. -/
def recKanaA : Facility := { station_kana := .str [0x3042] }

/-- `A = {name: "Aビル", station_kana: "しぶや", walk_minutes: 5}`. -/
def recA : Facility :=
  { name := .str [0x41, 0x30D3, 0x30EB],
    station_kana := .str [0x3057, 0x3076, 0x3084],
    walk_minutes := .num 5 }

/-- `B = {name: "Bビル", nearest_station: "渋谷駅", walk_minutes: 3}`. -/
def recB : Facility :=
  { name := .str [0x42, 0x30D3, 0x30EB],
    nearest_station := .str [0x6E0B, 0x8C37, 0x99C5],
    walk_minutes := .num 3 }

/-- `C = {name: "Cビル"}`. -/
def recC : Facility := { name := .str [0x43, 0x30D3, 0x30EB] }

/-- `{station_kana: "しんよこはま", nearest_station: "駅渋"}`: kana present,
so the nearest-station field must be ignored. -/
def recKanaPriority : Facility :=
  { station_kana := .str [0x3057, 0x3093, 0x3088, 0x3053, 0x306F, 0x307E],
    nearest_station := .str [0x99C5, 0x6E0B] }

/-- `{station_kana: "あ", nearest_station: "渋"}` for the version-2 priority
check. -/
def recV2KanaPriority : Facility :=
  { station_kana := .str [0x3042], nearest_station := .str [0x6E0B] }

/-- Number of occurrences of 駅 (U+99C5) in a string. -/
def cnt99 : List Nat → Nat
  | [] => 0
  | c :: t => (if c = 0x99C5 then 1 else 0) + cnt99 t

/-- `a` occurs as a contiguous substring of `b`. -/
def substrOf (a b : List Nat) : Prop := ∃ p q, b = p ++ a ++ q

/-- No two adjacent characters are both whitespace. -/
def noTwoWs : List Nat → Bool
  | [] => true
  | [_] => true
  | a :: b :: t => !(isWs a && isWs b) && noTwoWs (b :: t)

example : norm1Str [0x3000, 0x65B0, 0x3000, 0x99C5] = [0x65B0, 0x20, 0x99C5] := by decide

example : pickStationKey2 recEmpty = [0x7E, 0x7E, 0x7E, 0x7E] := by decide

example : pickWalkMinutes (some recA) = 5 := by decide

example : (toNumOrNull (.str [0x2D, 0x32, 0x2E, 0x35])).map ratTrunc = some (-2) := by
  decide

example : toIntOrNull (.str [0x2D, 0x32, 0x2E, 0x35]) = some (-2) := by decide

example : ratTrunc (-25, 10) = -2 := by decide

set_option maxRecDepth 40000 in
example : toIntOrNull (.str [0x31, 0x65, 0x34, 0x30, 0x30]) = none := by decide

set_option maxRecDepth 40000 in
example :
    toIntOrNull (.str [0x32, 0x2E, 0x39, 0x39, 0x39, 0x39, 0x39, 0x39, 0x39, 0x39,
      0x39, 0x39, 0x39, 0x39, 0x39, 0x39, 0x39, 0x39]) = some 3 := by decide

set_option maxRecDepth 40000 in
example : toIntOrNull (.str [0x31, 0x65, 0x2D, 0x34, 0x30, 0x30]) = some 0 := by decide

set_option maxRecDepth 40000 in
example : toIntOrNull (.str [0x39, 0x30, 0x30, 0x37, 0x31, 0x39, 0x39, 0x32, 0x35,
    0x34, 0x37, 0x34, 0x30, 0x39, 0x39, 0x33]) = some 9007199254740992 := by decide

example : pickStationKey (some recB) = [0x6E0B, 0x8C37] := by decide

example : pickStationKey (some recA) = [0x3057, 0x3076, 0x3084] := by decide

example : sortRecs le1 [recA, recB, recC] = [recC, recA, recB] := by decide

example : sortRecs leKey2 [recEmpty, recKanaA] = [recEmpty, recKanaA] := by decide

example :
    norm2Str [0x3000, 0x65B0, 0x6A2A, 0x6D5C, 0x3000, 0x99C5] =
      [0x65B0, 0x6A2A, 0x6D5C, 0x99C5] := by decide

example :
    normExtStr [0x3000, 0x65B0, 0x6A2A, 0x6D5C, 0x3000, 0x99C5] =
      [0x65B0, 0x6A2A, 0x6D5C, 0x99C5] := by decide

example : pickWalkMinutes (some { walk_minutes := .str [0x61, 0x62, 0x63] }) = 9999 := by
  decide

example : pickStationKey2 { nearest_station := .str [0x99C5, 0x524D, 0x99C5] } = [0x524D] := by
  decide

example : buildHaystack (some {}) = [] := by decide

/-! ### Character-level lemmas -/

theorem isWs_lowerChar (c : Nat) : isWs (lowerChar c) = isWs c := by
  unfold lowerChar
  split
  · simp only [isWs]
    rw [decide_eq_decide]
    omega
  · rfl

theorem isWs_kanaFold (c : Nat) : isWs (kanaFold c) = isWs c := by
  unfold kanaFold
  split
  · simp only [isWs]
    rw [decide_eq_decide]
    omega
  · rfl

theorem fwRepl_ne (c : Nat) : fwRepl c ≠ 0x3000 := by
  unfold fwRepl
  split <;> omega

theorem fwRepl_fix {c : Nat} (h : c ≠ 0x3000) : fwRepl c = c := by
  unfold fwRepl
  split <;> omega

theorem lowerChar_idem (c : Nat) : lowerChar (lowerChar c) = lowerChar c := by
  unfold lowerChar
  split_ifs <;> omega

theorem lowerChar_kanaFold_lowerChar (c : Nat) :
    lowerChar (kanaFold (lowerChar c)) = kanaFold (lowerChar c) := by
  unfold kanaFold lowerChar
  split_ifs <;> omega

theorem kanaFold_kanaFold_lowerChar (c : Nat) :
    kanaFold (kanaFold (lowerChar c)) = kanaFold (lowerChar c) := by
  unfold kanaFold lowerChar
  split_ifs <;> omega

theorem kanaFold_lowerChar_ne {c : Nat} (h : c ≠ 0x3000) :
    kanaFold (lowerChar c) ≠ 0x3000 := by
  unfold kanaFold lowerChar
  split_ifs <;> omega

theorem kanaFold_fix_lkf (c : Nat) :
    kanaFold (lowerChar (kanaFold c)) = lowerChar (kanaFold c) := by
  unfold kanaFold lowerChar
  split_ifs <;> omega

theorem dashRepl_cases (b : Nat) : dashRepl b = 0x30FC ∨ dashRepl b = b := by
  unfold dashRepl
  split
  · exact Or.inl rfl
  · exact Or.inr rfl

theorem dashRepl_idem (c : Nat) : dashRepl (dashRepl c) = dashRepl c := by
  unfold dashRepl
  split_ifs <;> omega

theorem isWs_dashRepl {c : Nat} (h : isWs c = false) : isWs (dashRepl c) = false := by
  unfold dashRepl
  split
  · decide
  · exact h

theorem eki_lowerChar (c : Nat) : lowerChar c = 0x99C5 ↔ c = 0x99C5 := by
  unfold lowerChar
  split_ifs <;> omega

theorem eki_kanaFold (c : Nat) : kanaFold c = 0x99C5 ↔ c = 0x99C5 := by
  unfold kanaFold
  split_ifs <;> omega

theorem eki_fwRepl (c : Nat) : fwRepl c = 0x99C5 ↔ c = 0x99C5 := by
  unfold fwRepl
  split_ifs <;> omega

theorem eki_dashRepl (c : Nat) : dashRepl c = 0x99C5 ↔ c = 0x99C5 := by
  unfold dashRepl
  split_ifs <;> omega

theorem eki_not_ws {c : Nat} (h : isWs c = true) : c ≠ 0x99C5 := by
  intro hc
  subst hc
  exact absurd h (by decide)

/-! ### Generic list lemmas -/

theorem map_fix {g : Nat → Nat} :
    ∀ {l : List Nat}, (∀ c ∈ l, g c = c) → l.map g = l := by
  intro l h
  induction l with
  | nil => rfl
  | cons a t ih =>
    simp only [List.map_cons]
    rw [h a (List.mem_cons_self a t), ih fun c hc => h c (List.mem_cons_of_mem a hc)]

theorem filter_fix {p : Nat → Bool} :
    ∀ {l : List Nat}, (∀ c ∈ l, p c = true) → l.filter p = l := by
  intro l h
  induction l with
  | nil => rfl
  | cons a t ih =>
    rw [List.filter_cons_of_pos (h a (List.mem_cons_self a t)),
      ih fun c hc => h c (List.mem_cons_of_mem a hc)]

theorem getLast?_map (g : Nat → Nat) :
    ∀ l : List Nat, (l.map g).getLast? = l.getLast?.map g := by
  intro l
  induction l with
  | nil => rfl
  | cons a t ih =>
    cases t with
    | nil => rfl
    | cons b t' =>
      simp only [List.map_cons, List.getLast?_cons_cons]
      simpa using ih

/-! ### collapseWs lemmas -/

theorem collapseWs_cons_nws {a : Nat} (h : isWs a = false) (t : List Nat) :
    collapseWs (a :: t) = a :: collapseWs t := by
  cases t with
  | nil => simp [collapseWs, h]
  | cons b t' => simp [collapseWs, h]

theorem collapseWs_mem : ∀ l : List Nat, ∀ c ∈ collapseWs l, c = 0x20 ∨ c ∈ l := by
  intro l
  induction l with
  | nil => simp [collapseWs]
  | cons a t ih =>
    cases t with
    | nil =>
      intro c hc
      simp only [collapseWs, List.mem_singleton] at hc
      subst hc
      by_cases h : isWs a = true
      · simp [h]
      · simp [h]
    | cons b t' =>
      intro c hc
      simp only [collapseWs] at hc
      split at hc
      · rcases ih c hc with h20 | hm
        · exact Or.inl h20
        · exact Or.inr (List.mem_cons_of_mem a hm)
      · rcases List.mem_cons.mp hc with hh | hm
        · subst hh
          by_cases h : isWs a = true
          · simp [h]
          · simp [h]
        · rcases ih c hm with h20 | hm2
          · exact Or.inl h20
          · exact Or.inr (List.mem_cons_of_mem a hm2)

theorem collapseWs_ws : ∀ l : List Nat, ∀ c ∈ collapseWs l, isWs c = true → c = 0x20 := by
  intro l
  induction l with
  | nil => simp [collapseWs]
  | cons a t ih =>
    cases t with
    | nil =>
      intro c hc hw
      simp only [collapseWs, List.mem_singleton] at hc
      subst hc
      by_cases h : isWs a = true
      · simp [h]
      · rw [if_neg h] at hw ⊢
        exact absurd hw (by simp [h])
    | cons b t' =>
      intro c hc hw
      simp only [collapseWs] at hc
      split at hc
      · exact ih c hc hw
      · rcases List.mem_cons.mp hc with hh | hm
        · subst hh
          by_cases h : isWs a = true
          · simp [h]
          · rw [if_neg h] at hw ⊢
            exact absurd hw (by simp [h])
        · exact ih c hm hw

theorem noTwo_tail {a : Nat} {t : List Nat} (h : noTwoWs (a :: t) = true) :
    noTwoWs t = true := by
  cases t with
  | nil => rfl
  | cons b t' =>
    simp only [noTwoWs, Bool.and_eq_true] at h
    exact h.2

theorem collapseWs_noTwo : ∀ l : List Nat, noTwoWs (collapseWs l) = true := by
  intro l
  induction l with
  | nil => rfl
  | cons a t ih =>
    cases t with
    | nil => rfl
    | cons b t' =>
      by_cases hab : (isWs a && isWs b) = true
      · rw [show collapseWs (a :: b :: t') = collapseWs (b :: t') from by
          simp [collapseWs, hab]]
        exact ih
      · rw [show collapseWs (a :: b :: t') =
            (if isWs a then 0x20 else a) :: collapseWs (b :: t') from by
          simp only [collapseWs]
          rw [if_neg hab]]
        by_cases hwa : isWs a = true
        · have hwb : isWs b = false := by
            revert hab
            cases isWs b <;> simp [hwa]
          rw [if_pos hwa, collapseWs_cons_nws hwb t']
          have ihb : noTwoWs (b :: collapseWs t') = true := by
            rw [← collapseWs_cons_nws hwb t']
            exact ih
          simp [noTwoWs, hwb, ihb]
        · have hwa' : isWs a = false := by
            cases h : isWs a
            · rfl
            · exact absurd h hwa
          rw [if_neg hwa]
          cases hz : collapseWs (b :: t') with
          | nil => rfl
          | cons h0 z' =>
            have ihz : noTwoWs (h0 :: z') = true := by rw [← hz]; exact ih
            simp [noTwoWs, hwa', ihz]

theorem collapseWs_fix :
    ∀ l : List Nat, (∀ c ∈ l, isWs c = true → c = 0x20) → noTwoWs l = true →
      collapseWs l = l := by
  intro l
  induction l with
  | nil => intro _ _; rfl
  | cons a t ih =>
    cases t with
    | nil =>
      intro hws _
      by_cases h : isWs a = true
      · have h20 := hws a (List.mem_singleton.mpr rfl) h
        simp [collapseWs, h, h20]
      · simp [collapseWs, h]
    | cons b t' =>
      intro hws hnt
      have hnt' := hnt
      simp only [noTwoWs, Bool.and_eq_true, Bool.not_eq_true'] at hnt'
      obtain ⟨hab, h2⟩ := hnt'
      rw [show collapseWs (a :: b :: t') =
          (if isWs a then 0x20 else a) :: collapseWs (b :: t') from by
        simp only [collapseWs]
        rw [if_neg (by simp [hab])]]
      rw [ih (fun c hc hw => hws c (List.mem_cons_of_mem a hc) hw) h2]
      by_cases h : isWs a = true
      · rw [if_pos h, hws a (List.mem_cons_self a _) h]
      · rw [if_neg h]

/-! ### dropWhile lemmas -/

theorem dropWhile_mem :
    ∀ l : List Nat, ∀ c ∈ l.dropWhile isWs, c ∈ l := by
  intro l
  induction l with
  | nil => simp
  | cons a t ih =>
    intro c hc
    rw [List.dropWhile_cons] at hc
    split at hc
    · exact List.mem_cons_of_mem a (ih c hc)
    · exact hc

theorem dropWhile_head :
    ∀ l : List Nat, ∀ c : Nat, (l.dropWhile isWs).head? = some c → isWs c = false := by
  intro l
  induction l with
  | nil => simp
  | cons a t ih =>
    intro c hc
    rw [List.dropWhile_cons] at hc
    split at hc
    · exact ih c hc
    · rename_i h
      simp only [List.head?_cons, Option.some.injEq] at hc
      subst hc
      simpa using h

theorem dropWhile_noTwo {l : List Nat} (h : noTwoWs l = true) :
    noTwoWs (l.dropWhile isWs) = true := by
  induction l with
  | nil => exact h
  | cons a t ih =>
    rw [List.dropWhile_cons]
    split
    · exact ih (noTwo_tail h)
    · exact h

theorem dropWhile_fix {l : List Nat}
    (h : ∀ c : Nat, l.head? = some c → isWs c = false) :
    l.dropWhile isWs = l := by
  cases l with
  | nil => rfl
  | cons a t =>
    have := h a rfl
    rw [List.dropWhile_cons, if_neg (by simp [this])]

/-! ### trimRight lemmas -/

theorem trimRight_cons_of_ne {a : Nat} {t : List Nat} (h : trimRight t ≠ []) :
    trimRight (a :: t) = a :: trimRight t := by
  simp only [trimRight]

theorem trimRight_cons_nil {a : Nat} {t : List Nat} (h : trimRight t = []) :
    trimRight (a :: t) = if isWs a = true then [] else [a] := by
  simp only [trimRight]
  rw [h]

theorem trimRight_shape (a : Nat) (t : List Nat) :
    trimRight (a :: t) = [] ∨ ∃ z, trimRight (a :: t) = a :: z := by
  cases hz : trimRight t with
  | nil =>
    rw [trimRight_cons_nil hz]
    by_cases hw : isWs a = true
    · left; rw [if_pos hw]
    · right; exact ⟨[], by rw [if_neg hw]⟩
  | cons d z' =>
    right
    exact ⟨d :: z', by rw [trimRight_cons_of_ne (by rw [hz]; simp), hz]⟩

theorem trimRight_mem : ∀ l : List Nat, ∀ c ∈ trimRight l, c ∈ l := by
  intro l
  induction l with
  | nil => simp [trimRight]
  | cons a t ih =>
    intro c hc
    cases hz : trimRight t with
    | nil =>
      rw [trimRight_cons_nil hz] at hc
      by_cases hw : isWs a = true
      · rw [if_pos hw] at hc
        exact absurd hc (List.not_mem_nil c)
      · rw [if_neg hw] at hc
        have := List.mem_singleton.mp hc
        subst this
        exact List.mem_cons_self _ _
    | cons d z' =>
      rw [trimRight_cons_of_ne (by rw [hz]; simp)] at hc
      rcases List.mem_cons.mp hc with h0 | hm
      · subst h0
        exact List.mem_cons_self _ _
      · exact List.mem_cons_of_mem a (ih c hm)

theorem trimRight_last :
    ∀ l : List Nat, ∀ c : Nat, (trimRight l).getLast? = some c → isWs c = false := by
  intro l
  induction l with
  | nil => simp [trimRight]
  | cons a t ih =>
    intro c hc
    cases hz : trimRight t with
    | nil =>
      rw [trimRight_cons_nil hz] at hc
      by_cases hw : isWs a = true
      · rw [if_pos hw] at hc
        simp at hc
      · rw [if_neg hw] at hc
        have : a = c := by simpa using hc
        subst this
        simpa using hw
    | cons d z' =>
      rw [trimRight_cons_of_ne (by rw [hz]; simp), hz,
        List.getLast?_cons_cons] at hc
      exact ih c (by rw [hz]; exact hc)

theorem trimRight_fix :
    ∀ l : List Nat, (∀ c : Nat, l.getLast? = some c → isWs c = false) →
      trimRight l = l := by
  intro l
  induction l with
  | nil => intro _; rfl
  | cons a t ih =>
    intro h
    cases t with
    | nil =>
      have := h a (by simp)
      simp [trimRight, this]
    | cons b t' =>
      have ht : trimRight (b :: t') = b :: t' :=
        ih fun c hc => h c (by rw [List.getLast?_cons_cons]; exact hc)
      rw [trimRight_cons_of_ne (by rw [ht]; simp), ht]

theorem trimRight_noTwo :
    ∀ l : List Nat, noTwoWs l = true → noTwoWs (trimRight l) = true := by
  intro l
  induction l with
  | nil => intro h; exact h
  | cons a t ih =>
    intro h
    cases t with
    | nil =>
      rw [trimRight_cons_nil (t := []) rfl]
      by_cases hw : isWs a = true
      · rw [if_pos hw]; rfl
      · rw [if_neg hw]; rfl
    | cons b t' =>
      have h' := h
      simp only [noTwoWs, Bool.and_eq_true, Bool.not_eq_true'] at h'
      obtain ⟨h1, h2⟩ := h'
      cases hz : trimRight (b :: t') with
      | nil =>
        rw [trimRight_cons_nil hz]
        by_cases hw : isWs a = true
        · rw [if_pos hw]; rfl
        · rw [if_neg hw]; rfl
      | cons d z' =>
        have hne : trimRight (b :: t') ≠ [] := by rw [hz]; simp
        rw [trimRight_cons_of_ne hne]
        rcases trimRight_shape b t' with h0 | ⟨z0, h0⟩
        · exact absurd h0 hne
        · rw [h0]
          have ihz : noTwoWs (b :: z0) = true := by
            rw [← h0]
            exact ih h2
          show (!(isWs a && isWs b) && noTwoWs (b :: z0)) = true
          simp [h1, ihz]

theorem cnt99_trimRight : ∀ l : List Nat, cnt99 (trimRight l) = cnt99 l := by
  intro l
  induction l with
  | nil => rfl
  | cons a t ih =>
    cases hz : trimRight t with
    | nil =>
      have ht0 : cnt99 t = 0 := by rw [← ih, hz]; rfl
      rw [trimRight_cons_nil hz]
      by_cases hw : isWs a = true
      · rw [if_pos hw]
        have hne : a ≠ 0x99C5 := eki_not_ws hw
        simp [cnt99, hne, ht0]
      · rw [if_neg hw]
        simp [cnt99, ht0]
    | cons d z' =>
      rw [trimRight_cons_of_ne (by rw [hz]; simp)]
      simp only [cnt99]
      rw [ih]

/-! ### Counting 駅 through the pipeline stages -/

theorem cnt99_map {g : Nat → Nat} (hg : ∀ c, g c = 0x99C5 ↔ c = 0x99C5) :
    ∀ l : List Nat, cnt99 (l.map g) = cnt99 l := by
  intro l
  induction l with
  | nil => rfl
  | cons a t ih =>
    simp only [List.map_cons, cnt99]
    rw [ih]
    by_cases h : a = 0x99C5
    · rw [if_pos ((hg a).mpr h), if_pos h]
    · rw [if_neg (fun hh => h ((hg a).mp hh)), if_neg h]

theorem cnt99_dropWhile : ∀ l : List Nat, cnt99 (l.dropWhile isWs) = cnt99 l := by
  intro l
  induction l with
  | nil => rfl
  | cons a t ih =>
    rw [List.dropWhile_cons]
    split
    · rename_i hw
      have hne : a ≠ 0x99C5 := eki_not_ws hw
      simp only [cnt99, if_neg hne]
      rw [ih]
      simp
    · rfl

theorem cnt99_collapseWs : ∀ l : List Nat, cnt99 (collapseWs l) = cnt99 l := by
  intro l
  induction l with
  | nil => rfl
  | cons a t ih =>
    cases t with
    | nil =>
      by_cases hw : isWs a = true
      · have hne : a ≠ 0x99C5 := eki_not_ws hw
        simp [collapseWs, hw, cnt99, hne]
      · simp only [collapseWs]
        rw [if_neg hw]
    | cons b t' =>
      by_cases hab : (isWs a && isWs b) = true
      · rw [show collapseWs (a :: b :: t') = collapseWs (b :: t') from by
          simp [collapseWs, hab]]
        have hwa : isWs a = true := (Bool.and_eq_true _ _ ▸ hab).1
        have hne : a ≠ 0x99C5 := eki_not_ws hwa
        simp only [cnt99, if_neg hne]
        rw [ih]
        simp [cnt99]
      · rw [show collapseWs (a :: b :: t') =
            (if isWs a then 0x20 else a) :: collapseWs (b :: t') from by
          simp only [collapseWs]
          rw [if_neg hab]]
        by_cases hw : isWs a = true
        · have hne : a ≠ 0x99C5 := eki_not_ws hw
          rw [if_pos hw]
          simp only [cnt99, if_neg hne]
          rw [if_neg (by decide : ¬(0x20 = 0x99C5))]
          rw [ih]
          simp [cnt99]
        · rw [if_neg hw]
          simp only [cnt99]
          rw [ih]
          simp [cnt99]

theorem cnt99_filter_ws :
    ∀ l : List Nat, cnt99 (l.filter fun c => !isWs c) = cnt99 l := by
  intro l
  induction l with
  | nil => rfl
  | cons a t ih =>
    rw [List.filter_cons]
    by_cases hw : isWs a = true
    · have hne : a ≠ 0x99C5 := eki_not_ws hw
      rw [if_neg (by simp [hw])]
      simp only [cnt99, if_neg hne]
      rw [ih]
      simp
    · rw [if_pos (by simp [Bool.not_eq_true] at hw; simp [hw])]
      simp only [cnt99]
      rw [ih]

theorem cnt99_filter_bracket :
    ∀ l : List Nat, cnt99 (l.filter fun c => !isBracket c) = cnt99 l := by
  intro l
  induction l with
  | nil => rfl
  | cons a t ih =>
    rw [List.filter_cons]
    by_cases hb : isBracket a = true
    · have hne : a ≠ 0x99C5 := by
        intro hh
        subst hh
        exact absurd hb (by decide)
      rw [if_neg (by simp [hb])]
      simp only [cnt99, if_neg hne]
      rw [ih]
      simp
    · rw [if_pos (by simp [Bool.not_eq_true] at hb; simp [hb])]
      simp only [cnt99]
      rw [ih]

/-! ### noTwoWs through maps -/

theorem noTwo_map {g : Nat → Nat} (hg : ∀ c, isWs (g c) = isWs c) :
    ∀ l : List Nat, noTwoWs (l.map g) = noTwoWs l := by
  intro l
  induction l with
  | nil => rfl
  | cons a t ih =>
    cases t with
    | nil => rfl
    | cons b t' =>
      simp only [List.map_cons] at ih ⊢
      simp only [noTwoWs, hg, ih]

/-! ### trimWs combinations -/

theorem trimWs_mem {l : List Nat} {c : Nat} (h : c ∈ trimWs l) : c ∈ l :=
  dropWhile_mem l c (trimRight_mem _ c h)

theorem trimWs_head :
    ∀ (l : List Nat) (c : Nat), (trimWs l).head? = some c → isWs c = false := by
  intro l c hc
  unfold trimWs at hc
  cases hx : l.dropWhile isWs with
  | nil =>
    rw [hx] at hc
    simp [trimRight] at hc
  | cons a t =>
    rw [hx] at hc
    rcases trimRight_shape a t with h0 | ⟨z, h0⟩
    · rw [h0] at hc
      simp at hc
    · rw [h0] at hc
      simp only [List.head?_cons, Option.some.injEq] at hc
      subst hc
      exact dropWhile_head l a (by rw [hx]; rfl)

theorem trimWs_last (l : List Nat) (c : Nat) (h : (trimWs l).getLast? = some c) :
    isWs c = false :=
  trimRight_last _ c h

theorem trimWs_noTwo {l : List Nat} (h : noTwoWs l = true) :
    noTwoWs (trimWs l) = true :=
  trimRight_noTwo _ (dropWhile_noTwo h)

theorem trimWs_fix {l : List Nat}
    (hh : ∀ c : Nat, l.head? = some c → isWs c = false)
    (hl : ∀ c : Nat, l.getLast? = some c → isWs c = false) :
    trimWs l = l := by
  unfold trimWs
  rw [dropWhile_fix hh]
  exact trimRight_fix l hl

theorem cnt99_trimWs (l : List Nat) : cnt99 (trimWs l) = cnt99 l := by
  unfold trimWs
  rw [cnt99_trimRight, cnt99_dropWhile]

/-! ### Idempotence of the version-1 normalizer -/

theorem norm1Str_char_core (s : List Nat) (c : Nat) (hc : c ∈ norm1Str s) :
    ∃ b, c = kanaFold (lowerChar b) ∧ b ≠ 0x3000 ∧ (isWs b = true → b = 0x20) := by
  unfold norm1Str at hc
  obtain ⟨b1, hb1, rfl⟩ := List.mem_map.mp hc
  obtain ⟨b, hb, rfl⟩ := List.mem_map.mp hb1
  have hbu : b ∈ collapseWs (s.map fwRepl) := trimWs_mem hb
  refine ⟨b, rfl, ?_, fun hw => collapseWs_ws _ b hbu hw⟩
  rcases collapseWs_mem _ b hbu with h20 | hm
  · subst h20
    decide
  · obtain ⟨x, _, rfl⟩ := List.mem_map.mp hm
    exact fwRepl_ne x

theorem norm1Char_props {c : Nat}
    (hb : ∃ b, c = kanaFold (lowerChar b) ∧ b ≠ 0x3000 ∧ (isWs b = true → b = 0x20)) :
    c ≠ 0x3000 ∧ (isWs c = true → c = 0x20) ∧ lowerChar c = c ∧ kanaFold c = c := by
  obtain ⟨b, rfl, h3000, hws⟩ := hb
  refine ⟨kanaFold_lowerChar_ne h3000, ?_, lowerChar_kanaFold_lowerChar b,
    kanaFold_kanaFold_lowerChar b⟩
  intro hw
  rw [isWs_kanaFold, isWs_lowerChar] at hw
  rw [hws hw]
  decide

theorem norm1Str_noTwo (s : List Nat) : noTwoWs (norm1Str s) = true := by
  unfold norm1Str
  rw [noTwo_map isWs_kanaFold, noTwo_map isWs_lowerChar]
  exact trimWs_noTwo (collapseWs_noTwo _)

theorem norm1Str_head (s : List Nat) :
    ∀ c : Nat, (norm1Str s).head? = some c → isWs c = false := by
  intro c hc
  unfold norm1Str at hc
  rw [List.head?_map, List.head?_map] at hc
  cases hh : (trimWs (collapseWs (s.map fwRepl))).head? with
  | none =>
    rw [hh] at hc
    simp at hc
  | some b =>
    rw [hh] at hc
    simp only [Option.map_some', Option.some.injEq] at hc
    have hwb : isWs b = false := trimWs_head _ b hh
    rw [← hc, isWs_kanaFold, isWs_lowerChar]
    exact hwb

theorem norm1Str_last (s : List Nat) :
    ∀ c : Nat, (norm1Str s).getLast? = some c → isWs c = false := by
  intro c hc
  unfold norm1Str at hc
  rw [getLast?_map, getLast?_map] at hc
  cases hh : (trimWs (collapseWs (s.map fwRepl))).getLast? with
  | none =>
    rw [hh] at hc
    simp at hc
  | some b =>
    rw [hh] at hc
    simp only [Option.map_some', Option.some.injEq] at hc
    have hwb : isWs b = false := trimWs_last _ b hh
    rw [← hc, isWs_kanaFold, isWs_lowerChar]
    exact hwb

theorem norm1Str_idem (s : List Nat) : norm1Str (norm1Str s) = norm1Str s := by
  have hchar : ∀ c ∈ norm1Str s,
      c ≠ 0x3000 ∧ (isWs c = true → c = 0x20) ∧ lowerChar c = c ∧ kanaFold c = c :=
    fun c hc => norm1Char_props (norm1Str_char_core s c hc)
  have h1 : (norm1Str s).map fwRepl = norm1Str s :=
    map_fix fun c hc => fwRepl_fix (hchar c hc).1
  have h2 : collapseWs (norm1Str s) = norm1Str s :=
    collapseWs_fix _ (fun c hc hw => (hchar c hc).2.1 hw) (norm1Str_noTwo s)
  have h3 : trimWs (norm1Str s) = norm1Str s :=
    trimWs_fix (norm1Str_head s) (norm1Str_last s)
  have h4 : (norm1Str s).map lowerChar = norm1Str s :=
    map_fix fun c hc => (hchar c hc).2.2.1
  have h5 : (norm1Str s).map kanaFold = norm1Str s :=
    map_fix fun c hc => (hchar c hc).2.2.2
  show ((trimWs (collapseWs ((norm1Str s).map fwRepl))).map lowerChar).map kanaFold =
    norm1Str s
  rw [h1, h2, h3, h4, h5]

/-! ### Idempotence of the part_000 normalizer -/

theorem normExtStr_char (s : List Nat) (c : Nat) (hc : c ∈ normExtStr s) :
    kanaFold c = c ∧ lowerChar c = c ∧ isWs c = false ∧ dashRepl c = c ∧
      isBracket c = false := by
  unfold normExtStr at hc
  obtain ⟨hc1, hbr⟩ := List.mem_filter.mp hc
  obtain ⟨b, hb, rfl⟩ := List.mem_map.mp hc1
  obtain ⟨hb1, hwsb⟩ := List.mem_filter.mp hb
  obtain ⟨a, ha, rfl⟩ := List.mem_map.mp hb1
  obtain ⟨a0, _, rfl⟩ := List.mem_map.mp ha
  have hwsb' : isWs (lowerChar (kanaFold a0)) = false := by simpa using hwsb
  rcases dashRepl_cases (lowerChar (kanaFold a0)) with hd | hd
  · rw [hd]
    exact ⟨by decide, by decide, by decide, by decide, by decide⟩
  · rw [hd]
    refine ⟨kanaFold_fix_lkf a0, lowerChar_idem _, hwsb', hd, ?_⟩
    rw [hd] at hbr
    simpa using hbr

theorem normExtStr_idem (s : List Nat) : normExtStr (normExtStr s) = normExtStr s := by
  have hchar := normExtStr_char s
  have h1 : (normExtStr s).map kanaFold = normExtStr s :=
    map_fix fun c hc => (hchar c hc).1
  have h2 : (normExtStr s).map lowerChar = normExtStr s :=
    map_fix fun c hc => (hchar c hc).2.1
  have h3 : (normExtStr s).filter (fun c => !isWs c) = normExtStr s :=
    filter_fix fun c hc => by simp [(hchar c hc).2.2.1]
  have h4 : (normExtStr s).map dashRepl = normExtStr s :=
    map_fix fun c hc => (hchar c hc).2.2.2.1
  have h5 : (normExtStr s).filter (fun c => !isBracket c) = normExtStr s :=
    filter_fix fun c hc => by simp [(hchar c hc).2.2.2.2]
  show (((((normExtStr s).map kanaFold).map lowerChar).filter
      (fun c => !isWs c)).map dashRepl).filter (fun c => !isBracket c) = normExtStr s
  rw [h1, h2, h3, h4, h5]

/-! ### 駅-count preservation by all three normalizers -/

theorem cnt99_norm1Str (s : List Nat) : cnt99 (norm1Str s) = cnt99 s := by
  unfold norm1Str
  rw [cnt99_map eki_kanaFold, cnt99_map eki_lowerChar, cnt99_trimWs,
    cnt99_collapseWs, cnt99_map eki_fwRepl]

theorem cnt99_norm2Str (s : List Nat) : cnt99 (norm2Str s) = cnt99 s := by
  unfold norm2Str
  rw [cnt99_map eki_lowerChar, cnt99_filter_ws, cnt99_map eki_kanaFold,
    cnt99_trimWs, cnt99_collapseWs, cnt99_map eki_fwRepl]

theorem cnt99_normExtStr (s : List Nat) : cnt99 (normExtStr s) = cnt99 s := by
  unfold normExtStr
  rw [cnt99_filter_bracket, cnt99_map eki_dashRepl, cnt99_filter_ws,
    cnt99_map eki_lowerChar, cnt99_map eki_kanaFold]

/-! ### Trailing-suffix characterization -/

theorem dropTrailingEki_spec :
    ∀ s : List Nat,
      dropTrailingEki s = s ∨ ∃ t, s = t ++ [0x99C5] ∧ dropTrailingEki s = t := by
  intro s
  cases h : s.getLast? with
  | none =>
    left
    unfold dropTrailingEki
    rw [h]
  | some c =>
    by_cases hc : c = 0x99C5
    · subst hc
      right
      have hne : s ≠ [] := by
        intro hh
        rw [hh] at h
        simp at h
      have h3 : s.getLast hne = 0x99C5 := by
        have h2 := List.getLast?_eq_getLast s hne
        rw [h] at h2
        injection h2 with h4
        exact h4.symm
      refine ⟨s.dropLast, ?_, ?_⟩
      · conv_lhs => rw [← List.dropLast_append_getLast hne]
        rw [h3]
      · unfold dropTrailingEki
        rw [h]
        simp
    · left
      unfold dropTrailingEki
      rw [h]
      simp [hc]

theorem dropTrailingEki_append (s : List Nat) :
    dropTrailingEki (s ++ [0x99C5]) = s := by
  unfold dropTrailingEki
  rw [List.getLast?_concat]
  simp

/-! ### getD through the kana fold -/

theorem getD_map_kanaFold :
    ∀ (s : List Nat) (i : Nat), (s.map kanaFold).getD i 0 = kanaFold (s.getD i 0) := by
  intro s
  induction s with
  | nil =>
    intro i
    simp only [List.map_nil, List.getD_nil]
    decide
  | cons a t ih =>
    intro i
    cases i with
    | zero => simp [List.getD_cons_zero]
    | succ n =>
      simp only [List.map_cons, List.getD_cons_succ]
      exact ih n

/-! ### Claim theorems -/

/-- C1: evaluation of the code at the failing input.  The version-2
`pickStationKey` does return the `~~~~` sentinel for a record with no
station identity, but `~` (U+007E) precedes every hiragana code point, so
the sentinel compares lexicographically BEFORE the key `あ` and sorting
`[{}, {station_kana:"あ"}]` leaves the empty record first, contradicting
both the claim and the code's own `nulls go last` comment.  The version-1
`pickStationKey` has no sentinel at all: it returns the empty string, which
also sorts first. -/
theorem C1_sentinel_eval :
    pickStationKey2 recEmpty = [0x7E, 0x7E, 0x7E, 0x7E]
    ∧ pickStationKey2 recKanaA = [0x3042]
    ∧ ltStr (pickStationKey2 recEmpty) (pickStationKey2 recKanaA) = true
    ∧ sortRecs leKey2 [recEmpty, recKanaA] = [recEmpty, recKanaA]
    ∧ pickStationKey2 recEmpty = pickStationKey2 recC
    ∧ pickStationKey (some recEmpty) = []
    ∧ ltStr (pickStationKey (some recEmpty)) (pickStationKey (some recKanaA)) = true := by
  refine ⟨by decide, by decide, by decide, by decide, by decide, by decide, by decide⟩

/-- C2 counterexample: `pickStationKey(B)` is the kanji string `渋谷`, not
the hiragana `しぶや`, because `normalizeForSearch` keeps kanji as-is, so
the keys of A and B differ and the sort does not produce `[B, A, C]`. -/
theorem C2_sort_counterexample :
    pickStationKey (some recB) ≠ pickStationKey (some recA)
    ∧ sortRecs le1 [recA, recB, recC] ≠ [recB, recA, recC] := by
  refine ⟨by decide, by decide⟩

/-- C2 amended: key(A) = `しぶや` (hiragana), key(B) = `渋谷` (kanji, the
trailing `駅` stripped but no kana reading produced), key(C) = the empty
string; sorting by (station key, walk minutes) with code-point
lexicographic comparison yields `[C, A, B]`, because the empty key sorts
first and `しぶや` (U+3057...) precedes `渋谷` (U+6E0B...). -/
theorem C2_sort_amended :
    pickStationKey (some recA) = [0x3057, 0x3076, 0x3084]
    ∧ pickStationKey (some recB) = [0x6E0B, 0x8C37]
    ∧ pickStationKey (some recC) = []
    ∧ pickWalkMinutes (some recA) = 5
    ∧ pickWalkMinutes (some recB) = 3
    ∧ pickWalkMinutes (some recC) = 9999
    ∧ sortRecs le1 [recA, recB, recC] = [recC, recA, recB] := by
  refine ⟨by decide, by decide, by decide, by decide, by decide, by decide, by decide⟩

/-- C3: both cited normalizers are idempotent on every string: the
version-1 `normalizeForSearch` of common.js lines 100-107 and the extended
part_000 variant with dash unification and bracket stripping. -/
theorem C3_normalize_idem :
    ∀ s : List Nat,
      norm1Str (norm1Str s) = norm1Str s ∧ normExtStr (normExtStr s) = normExtStr s :=
  fun s => ⟨norm1Str_idem s, normExtStr_idem s⟩

/-- C4 counterexample: the version-2 `pickStationKey` (common.js lines
248-255) removes EVERY `駅` glyph from `nearest_station`, not just a
trailing one: on `{nearest_station:"駅前駅"}` it returns `前`, not the
claimed normalization of `駅前`. -/
theorem C4_priority_counterexample :
    pickStationKey2 { nearest_station := JSVal.str [0x99C5, 0x524D, 0x99C5] } ≠
      norm2Str [0x99C5, 0x524D] := by
  decide

/-- C4 amended: the version-1 `pickStationKey` (lines 124-135) follows the
claimed priority order and strips exactly one trailing `駅`, keeping a
non-final `駅`; `stripStationSuffix` either leaves the string unchanged or
removes exactly the final `駅`.  The version-2 `pickStationKey` instead
removes every `駅` occurrence and falls back to the sentinel when the
result is blank. -/
theorem C4_priority_amended :
    pickStationKey (some recKanaPriority) = [0x3057, 0x3093, 0x3088, 0x3053, 0x306F, 0x307E]
    ∧ pickStationKey (some { nearest_station := JSVal.str [0x65B0, 0x6A2A, 0x6D5C, 0x99C5] }) =
      [0x65B0, 0x6A2A, 0x6D5C]
    ∧ pickStationKey (some { nearest_station := JSVal.str [0x99C5, 0x524D, 0x99C5] }) =
      [0x99C5, 0x524D]
    ∧ pickStationKey (some { nearest_station := JSVal.str [0x99C5, 0x99C5] }) = [0x99C5]
    ∧ (∀ s : List Nat,
        dropTrailingEki s = s ∨ ∃ t, s = t ++ [0x99C5] ∧ dropTrailingEki s = t)
    ∧ (∀ s : List Nat, dropTrailingEki (s ++ [0x99C5]) = s)
    ∧ pickStationKey2 recV2KanaPriority = [0x3042]
    ∧ pickStationKey2 { nearest_station := JSVal.str [0x99C5, 0x524D, 0x99C5] } = [0x524D]
    ∧ pickStationKey2 { nearest_station := JSVal.str [0x99C5] } = [0x7E, 0x7E, 0x7E, 0x7E] := by
  refine ⟨by decide, by decide, by decide, by decide, dropTrailingEki_spec,
    dropTrailingEki_append, by decide, by decide, by decide⟩

set_option maxRecDepth 40000 in
/-- C5: `pickWalkMinutes` parses `walk_minutes` by trimming, `Number`
conversion (the exact literal value rounded to the nearest binary64
double) and truncation toward zero, and the null return of `toIntOrNull`
(hence the 9999 sentinel) occurs exactly for absent/null values,
null-like strings (blank, `-`, `null` case-insensitively), and strings
that do not parse to a finite number — including `1e400`, whose parse
overflows to Infinity and is rejected by the `Number.isFinite` check.
Rounding matters: `2.9999999999999999` rounds to the double 3.0 and
truncates to 3, and `1e-400` underflows to the finite value 0. -/
theorem C5_walk_contract :
    ∀ v : JSVal,
      (toIntOrNull v = none ↔
        (v = JSVal.null ∨ v = JSVal.undef ∨ isNullLike (trimWs (safeStr v)) = true ∨
          jsNumberFinite (trimWs (safeStr v)) = none))
      ∧ (∀ n : Int, toIntOrNull v = some n →
          pickWalkMinutes (some { walk_minutes := v }) = n)
      ∧ (toIntOrNull v = none → pickWalkMinutes (some { walk_minutes := v }) = 9999)
      ∧ (∀ q : Int × Nat, toNumOrNull v = some q → toIntOrNull v = some (ratTrunc q))
      ∧ pickWalkMinutes (some { walk_minutes := JSVal.str [0x37] }) = 7
      ∧ pickWalkMinutes
          (some { walk_minutes := JSVal.str [0x31, 0x65, 0x34, 0x30, 0x30] }) = 9999
      ∧ pickWalkMinutes
          (some { walk_minutes := JSVal.str [0x32, 0x2E, 0x39, 0x39, 0x39, 0x39, 0x39,
            0x39, 0x39, 0x39, 0x39, 0x39, 0x39, 0x39, 0x39, 0x39, 0x39, 0x39] }) = 3
      ∧ pickWalkMinutes
          (some { walk_minutes := JSVal.str [0x31, 0x65, 0x2D, 0x34, 0x30, 0x30] }) = 0 := by
  intro v
  refine ⟨?_, ?_, ?_, ?_, by decide, by decide, by decide, by decide⟩
  · cases v with
    | null => simp [toIntOrNull, toNumOrNull]
    | undef => simp [toIntOrNull, toNumOrNull]
    | str s =>
      by_cases hP : isNullLike (trimWs (safeStr (JSVal.str s))) = true
      · simp [toIntOrNull, toNumOrNull, hP]
      · simp [toIntOrNull, toNumOrNull, hP, Option.map_eq_none']
    | num n =>
      by_cases hP : isNullLike (trimWs (safeStr (JSVal.num n))) = true
      · simp [toIntOrNull, toNumOrNull, hP]
      · simp [toIntOrNull, toNumOrNull, hP, Option.map_eq_none']
  · intro n h
    show (match toIntOrNull v with | none => (9999 : Int) | some w => w) = n
    rw [h]
  · intro h
    show (match toIntOrNull v with | none => (9999 : Int) | some w => w) = (9999 : Int)
    rw [h]
  · intro q h
    unfold toIntOrNull
    rw [h]
    rfl

/-- C5 witness: the contract applied at the concrete record
`{walk_minutes: "7.5"}`, whose parse truncates to 7. -/
theorem C5_walk_contract_witness :
    pickWalkMinutes (some { walk_minutes := JSVal.str [0x37, 0x2E, 0x35] }) = 7 :=
  (C5_walk_contract (JSVal.str [0x37, 0x2E, 0x35])).2.1 7 (by decide)

/-- C6: the kana fold maps exactly U+30A1..U+30F6 down by 0x60, leaves
every other code point (for example U+30FC and an astral emoji code point)
unchanged, preserves length, returns the empty string on null, undefined
and empty input, and the version-2 `kataToHira` agrees with `toHira`. -/
theorem C6_fold_contract :
    (∀ (s : List Nat) (i : Nat),
      (toHira (JSVal.str s)).getD i 0 =
        (if 0x30A1 ≤ s.getD i 0 ∧ s.getD i 0 ≤ 0x30F6 then s.getD i 0 - 0x60
         else s.getD i 0))
    ∧ (∀ s : List Nat, (toHira (JSVal.str s)).length = s.length)
    ∧ toHira JSVal.null = []
    ∧ toHira JSVal.undef = []
    ∧ toHira (JSVal.str []) = []
    ∧ toHira (JSVal.str [0x30FC]) = [0x30FC]
    ∧ toHira (JSVal.str [0x30A1]) = [0x3041]
    ∧ toHira (JSVal.str [0x30F6]) = [0x3096]
    ∧ toHira (JSVal.str [0x1F600]) = [0x1F600]
    ∧ (∀ v : JSVal, kataToHira v = toHira v) := by
  refine ⟨?_, ?_, rfl, rfl, rfl, by decide, by decide, by decide, by decide, fun v => rfl⟩
  · intro s i
    show (s.map kanaFold).getD i 0 = _
    rw [getD_map_kanaFold]
    rfl
  · intro s
    simp [toHira, safeStr]

/-- C7 counterexample: the version-2 `pickStationKey` dereferences
`f.station_kana` without optional chaining, so on a null/undefined record
it raises a TypeError instead of returning a value — the claim that every
core function is total on a null record fails for it. -/
theorem C7_total_counterexample :
    pickStationKey2OnVal none = Except.error () := rfl

/-- C7 amended: all the cited helpers are total and return the documented
defaults on null, undefined, empty and malformed input; the single
exception is the version-2 `pickStationKey`, which is total on every
actual record (even one with all fields missing) but throws on a
null/undefined record. -/
theorem C7_total_amended :
    toHira JSVal.null = []
    ∧ toHira JSVal.undef = []
    ∧ normalizeForSearch JSVal.null = []
    ∧ normalizeForSearch JSVal.undef = []
    ∧ buildHaystack none = []
    ∧ buildHaystack (some {}) = []
    ∧ pickStationKey none = []
    ∧ pickStationKey (some {}) = []
    ∧ pickWalkMinutes none = 9999
    ∧ pickWalkMinutes (some {}) = 9999
    ∧ pickWalkMinutes (some { walk_minutes := JSVal.str [0x61, 0x62, 0x63] }) = 9999
    ∧ pickStationKey2 {} = [0x7E, 0x7E, 0x7E, 0x7E]
    ∧ pickStationKey2OnVal (some {}) = Except.ok [0x7E, 0x7E, 0x7E, 0x7E]
    ∧ pickStationKey2OnVal none = Except.error () := by
  refine ⟨rfl, rfl, by decide, by decide, by decide, by decide, by decide, by decide,
    by decide, by decide, by decide, by decide, ?_, rfl⟩
  show Except.ok (pickStationKey2 {}) = Except.ok [0x7E, 0x7E, 0x7E, 0x7E]
  rw [show pickStationKey2 {} = [0x7E, 0x7E, 0x7E, 0x7E] from by decide]

/-- C8 counterexample: the version-1 normalizer collapses the inner
full-width space of `　新横浜　駅` to a single ASCII space instead of
removing it, so its output differs from the normalization of `新横浜駅`. -/
theorem C8_fullwidth_counterexample :
    norm1Str [0x3000, 0x65B0, 0x6A2A, 0x6D5C, 0x3000, 0x99C5] ≠
      norm1Str [0x65B0, 0x6A2A, 0x6D5C, 0x99C5] := by
  decide

/-- C8 amended: the space-removing normalizers (common.js lines 237-246 and
part_000) do send `　新横浜　駅` and `新横浜駅` to the same canonical
string; the collapse-to-single-space variant of lines 100-107 instead
yields `新横浜 駅`.  No variant ever strips a `駅` glyph: all three
preserve the number of `駅` occurrences of every input. -/
theorem C8_fullwidth_amended :
    norm2Str [0x3000, 0x65B0, 0x6A2A, 0x6D5C, 0x3000, 0x99C5] =
      norm2Str [0x65B0, 0x6A2A, 0x6D5C, 0x99C5]
    ∧ normExtStr [0x3000, 0x65B0, 0x6A2A, 0x6D5C, 0x3000, 0x99C5] =
      normExtStr [0x65B0, 0x6A2A, 0x6D5C, 0x99C5]
    ∧ norm1Str [0x3000, 0x65B0, 0x6A2A, 0x6D5C, 0x3000, 0x99C5] =
      [0x65B0, 0x6A2A, 0x6D5C, 0x20, 0x99C5]
    ∧ norm1Str [0x65B0, 0x6A2A, 0x6D5C, 0x99C5] = [0x65B0, 0x6A2A, 0x6D5C, 0x99C5]
    ∧ (∀ s : List Nat, cnt99 (norm1Str s) = cnt99 s)
    ∧ (∀ s : List Nat, cnt99 (norm2Str s) = cnt99 s)
    ∧ (∀ s : List Nat, cnt99 (normExtStr s) = cnt99 s) := by
  refine ⟨by decide, by decide, by decide, by decide, cnt99_norm1Str, cnt99_norm2Str,
    cnt99_normExtStr⟩

/-- C9: the haystack is already canonical — normalizing it again is the
identity — so a record matches a query exactly when the normalized query
is a substring of the haystack, with no further normalization on either
side. -/
theorem C9_haystack_canonical :
    ∀ f : Option Facility,
      norm1Str (buildHaystack f) = buildHaystack f
      ∧ ∀ q : JSVal,
          (substrOf (normalizeForSearch q) (buildHaystack f) ↔
            substrOf (normalizeForSearch q) (norm1Str (buildHaystack f))) := by
  intro f
  have h : norm1Str (buildHaystack f) = buildHaystack f := norm1Str_idem _
  exact ⟨h, fun q => by rw [h]⟩

/-- C10: a zero or negative parseable `walk_minutes` is returned as-is
after truncation toward zero — `-2.5` gives -2 and `0` gives 0 — so such
records sort strictly before every record with a positive walk time. -/
theorem C10_walk_no_lower_bound :
    pickWalkMinutes (some { walk_minutes := JSVal.str [0x2D, 0x32, 0x2E, 0x35] }) = -2
    ∧ pickWalkMinutes (some { walk_minutes := JSVal.str [0x30] }) = 0
    ∧ pickWalkMinutes (some { walk_minutes := JSVal.str [0x2D, 0x37] }) = -7
    ∧ (∀ v : JSVal, ∀ n : Int, toIntOrNull v = some n →
        pickWalkMinutes (some { walk_minutes := v }) = n)
    ∧ (∀ f g : Option Facility, pickWalkMinutes f ≤ 0 → 0 < pickWalkMinutes g →
        pickWalkMinutes f < pickWalkMinutes g) := by
  refine ⟨by decide, by decide, by decide, ?_, ?_⟩
  · intro v n h
    show (match toIntOrNull v with | none => (9999 : Int) | some w => w) = n
    rw [h]
  · intro f g h1 h2
    omega

/-- C10 witness: the record with `walk_minutes: "-2.5"` sorts strictly
before the record with `walk_minutes: "3"`. -/
theorem C10_walk_no_lower_bound_witness :
    pickWalkMinutes (some { walk_minutes := JSVal.str [0x2D, 0x32, 0x2E, 0x35] }) <
      pickWalkMinutes (some { walk_minutes := JSVal.str [0x33] }) :=
  C10_walk_no_lower_bound.2.2.2.2 _ _ (by decide) (by decide)
